import Mathlib

namespace Pixlie

/-- Structured JSON-ish values, modelling the `result` / `parameters` payloads
of a `ToolExecution` (TypeScript `unknown` holding parsed JSON). -/
inductive Json where
  | null : Json
  | bool (b : Bool) : Json
  | num (n : Int) : Json
  | str (s : String) : Json
  | arr (xs : List Json) : Json
  | obj (fields : List (String × Json)) : Json

/-- `ToolExecution` from `types/conversation`: `tool_name`, `parameters`,
`result: unknown | null`, `error: string | null`, `execution_time_ms: bigint | null`.
`null` is `none`. -/
structure ToolExecution where
  tool_name : String
  parameters : Json
  result : Option Json
  error : Option String
  execution_time_ms : Option Int

/-- `StepType` from `types/conversation`. -/
inductive StepType where
  | Planning | ToolExecution | Synthesis
deriving DecidableEq

/-- `StepStatus` from `types/conversation`. -/
inductive StepStatus where
  | Pending | InProgress | Completed | Failed
deriving DecidableEq

/-- `StepResult` from `types/conversation` (`data`, `summary`, `next_action`). -/
structure StepResult where
  data : Option Json
  summary : Option String
  next_action : Option String

/-- `ConversationStep` from `types/conversation`, as used by the fixtures in
the component tests. -/
structure ConversationStep where
  step_id : Nat
  step_type : StepType
  llm_request : Option String
  llm_response : Option String
  tool_calls : List ToolExecution
  results : Option StepResult
  status : StepStatus
  created_at : String

/-- `Conversation` from `types/conversation`: ledger root with the ordered
step sequence. -/
structure Conversation where
  id : Nat
  user_query : String
  steps : List ConversationStep
  created_at : String
  updated_at : String

/-! ## JavaScript helpers shared by the display components -/

/-- JavaScript truthiness of a `string | null` value: `null` and the empty
string are falsy (`tool.error ?` in the components). -/
def jsTruthyStr (o : Option String) : Bool :=
  match o with
  | none => false
  | some s => s != ""

/-- JavaScript truthiness of a `bigint | null` value: `null` and `0n` are
falsy (`!timeMs` in `formatExecutionTime`). -/
def jsTruthyBigInt (o : Option Int) : Bool :=
  match o with
  | none => false
  | some t => t != 0

/-- Nearest integer to `num * 10 / den` with ties away from zero
(`den > 0` at every use site).  Models the value `toFixed(1)` prints,
with JS float division idealised as exact rational arithmetic. -/
def roundTenths (num den : Int) : Int :=
  let s : Int := num * 10
  if s ≥ 0 then ((2 * s.toNat + den.toNat) / (2 * den.toNat) : Nat)
  else -(((2 * (-s).toNat + den.toNat) / (2 * den.toNat) : Nat) : Int)

/-- Model of `(num / den).toFixed(1)` from the display components: the value
rendered with exactly one digit after the decimal point. -/
def toFixed1 (num den : Int) : String :=
  let q := roundTenths num den
  if q < 0 then
    s!"-{(-q).toNat / 10}.{(-q).toNat % 10}"
  else
    s!"{q.toNat / 10}.{q.toNat % 10}"

namespace ToolExecutionTimeline

/-- `formatExecutionTime` from `ToolExecutionTimeline`
(`src/unnamed/part_007`, lines 83–89). -/
def formatExecutionTime (timeMs : Option Int) : String :=
  if !(jsTruthyBigInt timeMs) then "N/A"
  else
    let ms := timeMs.getD 0
    if ms < 1000 then s!"{ms}ms"
    else if ms < 60000 then toFixed1 ms 1000 ++ "s"
    else toFixed1 ms 60000 ++ "m"

/-- Tool status classification rendered by `ToolExecutionTimeline`
(`src/unnamed/part_007`, lines 281–289): `tool.error ? Failed :
tool.result !== null ? Completed : Running` (label text without the emoji). -/
def toolStatusLabel (tool : ToolExecution) : String :=
  if jsTruthyStr tool.error then "Failed"
  else if tool.result.isSome then "Completed"
  else "Running"

end ToolExecutionTimeline

namespace ToolExecutionModal

/-- `formatExecutionTime` from `ToolExecutionModal.tsx` (lines 50–56). -/
def formatExecutionTime (timeMs : Option Int) : String :=
  if !(jsTruthyBigInt timeMs) then "N/A"
  else
    let ms := timeMs.getD 0
    if ms < 1000 then s!"{ms}ms"
    else if ms < 60000 then toFixed1 ms 1000 ++ "s"
    else toFixed1 ms 60000 ++ "m"

/-- `getStatusText` from `ToolExecutionModal.tsx` (lines 87–91):
`if (tool.error) return Failed; if (tool.result !== null) return Completed;
return Running`. -/
def getStatusText (tool : ToolExecution) : String :=
  if jsTruthyStr tool.error then "Failed"
  else if tool.result.isSome then "Completed"
  else "Running"

end ToolExecutionModal

/-- Concrete `ToolExecution` with a non-null but empty-string `error`,
exhibiting the gap between `!== null` and JavaScript truthiness. -/
def emptyErrorTool : ToolExecution :=
  { tool_name := "sqlite_query"
    parameters := Json.null
    result := none
    error := some ""
    execution_time_ms := none }

/-- Concrete failed `ToolExecution` used to instantiate the status theorems. -/
def failedTool : ToolExecution :=
  { tool_name := "sqlite_query"
    parameters := Json.null
    result := some (Json.str "rows")
    error := some "timeout"
    execution_time_ms := some 500 }

/-! ## TextHighlighter (`src/webapp/src/components/TextHighlighter.tsx`) -/

/-- `EntityReference` from `types/EntityReference`, as used by the
`TextHighlighter` tests: `id`, `item_id`, `entity_id` and the offsets are
`bigint`; `confidence` is `number | null`, modelled exactly as a rational. -/
structure EntityReference where
  id : Int
  item_id : Int
  entity_id : Int
  original_text : String
  start_offset : Int
  end_offset : Int
  confidence : Option Rat
  created_at : String
deriving DecidableEq

/-- One entry of the `segments` array built by `TextHighlighter`. -/
structure HighlightSegment where
  text : List Char
  isHighlighted : Bool
  reference : Option EntityReference
deriving DecidableEq

/-- Clamp one index argument of `String.prototype.slice`: a negative index
counts from the end (floored at 0), a positive one is capped at the length. -/
def jsSliceIdx (len : Nat) (i : Int) : Nat :=
  if i < 0 then ((len : Int) + i).toNat else min i.toNat len

/-- `text.slice(a, b)` on a JavaScript string: the characters from the clamped
`a` (inclusive) to the clamped `b` (exclusive), empty when `a ≥ b`. -/
def jsSlice (s : List Char) (a b : Int) : List Char :=
  let lo := jsSliceIdx s.length a
  let hi := jsSliceIdx s.length b
  (s.drop lo).take (hi - lo)

namespace TextHighlighter

/-- `[...highlights].sort((a, b) => Number(a.start_offset) - Number(b.start_offset))`:
a stable sort by `start_offset`, modelled by insertion sort. -/
def sortByStart (hs : List EntityReference) : List EntityReference :=
  List.insertionSort (fun a b => a.start_offset ≤ b.start_offset) hs

/-- The `for (const highlight of sortedHighlights)` loop of `TextHighlighter`
(lines 28–57): walks the sorted highlights carrying `currentPos`, pushing the
gap before each highlight, the highlighted slice for each in-bounds highlight,
and finally the remaining text. -/
def segmentsGo (text : List Char) : List EntityReference → Int → List HighlightSegment
  | [], pos =>
      if pos < (text.length : Int) then
        [{ text := jsSlice text pos (text.length : Int), isHighlighted := false,
           reference := none }]
      else []
  | h :: rest, pos =>
      let start := h.start_offset
      let stop := h.end_offset
      let gap : List HighlightSegment :=
        if pos < start then
          [{ text := jsSlice text pos start, isHighlighted := false,
             reference := none }]
        else []
      if start < (text.length : Int) ∧ stop ≤ (text.length : Int) ∧ start < stop then
        gap ++ { text := jsSlice text start stop, isHighlighted := true,
                 reference := some h } :: segmentsGo text rest (max pos stop)
      else
        gap ++ segmentsGo text rest pos

/-- The `segments` value computed by the `TextHighlighter` component
(lines 17–60) for a given text and highlight list. -/
def segments (text : List Char) (highlights : List EntityReference) :
    List HighlightSegment :=
  if highlights.isEmpty then
    [{ text := text, isHighlighted := false, reference := none }]
  else segmentsGo text (sortByStart highlights) 0

end TextHighlighter

/-!
## Streaming chat client (`ChatInterface.handleSendMessage`, `src/unnamed/part_013`)

The reader loop of `handleSendMessage` (lines 173–211) is embedded as a pure
state machine: a read delivers a decoded chunk (a `List Char`), the chunk is
split on `'\n'`, and each resulting line is dispatched.  The client state is
the part of the React state the loop touches: the streaming assistant
message's accumulated `content` and `isStreaming` flag, and the
`toolExecution` step display (`setToolExecution(parsed.step)`); the step
object carried by a `tool_execution` event is represented by its JSON
serialization, which determines it completely.
-/

/-- JavaScript strings, modelled character by character. -/
abbrev JStr := List Char

/-- `chunk.split('\n')` on a JavaScript string. -/
def splitOnNl : JStr → List JStr
  | [] => [[]]
  | c :: rest =>
      if c = '\n' then [] :: splitOnNl rest
      else
        match splitOnNl rest with
        | [] => [[c]]
        | r :: rs => (c :: r) :: rs

/-- The six characters `data: ` checked by `line.startsWith('data: ')`. -/
def dataMarker : JStr := "data: ".toList

/-- The `[DONE]` sentinel payload. -/
def doneMarker : JStr := "[DONE]".toList

/-- Result of `JSON.parse` on a `data:` payload as the client consumes it:
a `content` event carrying a text chunk, a `tool_execution` event carrying a
`ConversationStep` (represented by its JSON serialization), or any other
successfully parsed value. -/
inductive StreamPayload where
  | content (c : JStr)
  | toolExecution (stepJson : JStr)
  | other
deriving DecidableEq

/-- Opening of the serialized `content` event object,
`{"type":"content","content":"`. -/
def contentOpen : JStr := "\x7b\"type\":\"content\",\"content\":\"".toList

/-- Closing of the serialized `content` event object, `"}`. -/
def contentClose : JStr := "\"\x7d".toList

/-- Opening of the serialized `tool_execution` event object,
`{"type":"tool_execution","step":`. -/
def toolOpen : JStr := "\x7b\"type\":\"tool_execution\",\"step\":".toList

/-- A single closing brace. -/
def braceClose : JStr := "\x7d".toList

/-- A single opening brace. -/
def braceOpen : JStr := "\x7b".toList

/-- A character the engine can place unescaped inside a JSON string literal:
anything but a quote, a backslash or a newline. -/
def simpleChar (c : Char) : Bool := !(c = '"' || c = '\\' || c = '\n')

/-- A chunk of Synthesis text that needs no JSON escaping. -/
def isSimple (s : JStr) : Bool := s.all simpleChar

/-- Modelled from the spec: the wire format of stream payloads (§6, the
engine that serializes them is not part of the repository) combined with the
client's `JSON.parse` call.  The recogniser accepts exactly the serialized
forms the spec prescribes — a `content` object with an escape-free string
chunk, a `tool_execution` object with a serialized step, any other JSON
object as an unhandled payload — and fails on anything else, as `JSON.parse`
throws on truncated text. -/
def jsonParse (s : JStr) : Option StreamPayload :=
  if contentOpen.isPrefixOf s ∧ contentClose.isSuffixOf s ∧
      contentOpen.length + contentClose.length ≤ s.length ∧
      isSimple ((s.drop contentOpen.length).take
        (s.length - contentOpen.length - contentClose.length)) then
    some (.content ((s.drop contentOpen.length).take
      (s.length - contentOpen.length - contentClose.length)))
  else if toolOpen.isPrefixOf s ∧ braceClose.isSuffixOf s ∧
      toolOpen.length + braceClose.length ≤ s.length then
    some (.toolExecution ((s.drop toolOpen.length).take
      (s.length - toolOpen.length - braceClose.length)))
  else if braceOpen.isPrefixOf s ∧ braceClose.isSuffixOf s then
    some .other
  else none

/-- The client-side state the stream reader mutates: the streaming assistant
message (`content`, `isStreaming`) and the tool-execution display. -/
structure ClientState where
  content : JStr
  isStreaming : Bool
  toolStep : Option JStr
deriving DecidableEq

/-- State right after the empty streaming assistant message is appended
(part_013 lines 162–170). -/
def initialClientState : ClientState :=
  { content := [], isStreaming := true, toolStep := none }

/-- The `for (const line of lines)` body (lines 181–210): lines without the
`data: ` marker are ignored; a `[DONE]` payload clears `isStreaming` and
breaks out of the per-chunk loop; a parsed `content` payload is appended to
the assistant message; a parsed `tool_execution` payload replaces the
displayed step; other payloads and `JSON.parse` failures change nothing. -/
def processLines : List JStr → ClientState → ClientState
  | [], st => st
  | line :: rest, st =>
      if dataMarker.isPrefixOf line then
        let data := line.drop 6
        if data = doneMarker then { st with isStreaming := false }
        else
          processLines rest
            (match jsonParse data with
             | some (.content c) => { st with content := st.content ++ c }
             | some (.toolExecution sj) => { st with toolStep := some sj }
             | some .other => st
             | none => st)
      else processLines rest st

/-- The `while (true)` read loop (lines 174–211): decode each read, split it
on newlines, process the lines; the loop ends when the reader is done. -/
def processChunks : List JStr → ClientState → ClientState
  | [], st => st
  | chunk :: rest, st => processChunks rest (processLines (splitOnNl chunk) st)

/-- Processing a sequence of pre-split line groups; used to relate the
chunked run to a single pass over all lines. -/
def processLineGroups : List (List JStr) → ClientState → ClientState
  | [], st => st
  | g :: rest, st => processLineGroups rest (processLines g st)

/-- Modelled from the spec: the serialized `content` event payload for one
Synthesis text chunk. -/
def contentEventData (c : JStr) : JStr := contentOpen ++ c ++ contentClose

/-- The full `data: `-prefixed line of a content event. -/
def contentLine (c : JStr) : JStr := dataMarker ++ contentEventData c

/-- The `data: [DONE]` sentinel line. -/
def doneLine : JStr := dataMarker ++ doneMarker

/-- Does this line start with `data: ` (the only lines the client reads)? -/
def isDataLine (l : JStr) : Bool := dataMarker.isPrefixOf l

/-- Is this line the `data: [DONE]` sentinel? -/
def isDoneLine (l : JStr) : Bool :=
  dataMarker.isPrefixOf l && (l.drop 6 == doneMarker)

/-- Modelled from the spec (§6): the lines of the event stream for a
Synthesis answer streamed as chunks `cs` — each event is a `data: <json>`
line followed by the blank separator line, terminated by the `data: [DONE]`
sentinel and its blank line. -/
def streamLines (cs : List JStr) : List JStr :=
  (cs.map (fun c => [contentLine c, []])).flatten ++ [doneLine, []]

/-- Raw bytes of a sequence of complete lines (each line is followed by its
`\n` terminator). -/
def linesBytes (ls : List JStr) : JStr := (ls.map (fun l => l ++ ['\n'])).flatten

/-- Raw bytes of the whole event stream for chunks `cs`. -/
def streamBytes (cs : List JStr) : JStr := linesBytes (streamLines cs)

/-- The `content` field carried by a line, when the line is a `data: ` line
whose payload parses as a `content` event. -/
def contentEventOf (l : JStr) : Option JStr :=
  if isDataLine l then
    match jsonParse (l.drop 6) with
    | some (.content c) => some c
    | _ => none
  else none

/-- The `content` fields of all `content` events of a line sequence, in
delivery order. -/
def contentEventsOf (ls : List JStr) : List JStr :=
  ls.filterMap contentEventOf

/-- Modelled from the spec (§4.2): a Provider stub fixed for one run — its
streaming variant emits the final answer text incrementally as chunks whose
concatenation is the non-streamed `FinalAnswer` text. -/
structure ProviderStub where
  finalAnswerText : JStr
  chunks : List JStr
  chunks_flatten : chunks.flatten = finalAnswerText
  chunks_simple : ∀ c ∈ chunks, isSimple c = true

/-- Provider stub used to instantiate the streaming theorems: final answer
`42`, streamed as the chunks `4` and `2`. -/
def c2Stub : ProviderStub := ⟨['4', '2'], [['4'], ['2']], rfl, by decide⟩

/-!
## The analysis engine, modelled from the spec

The Rust analysis engine — Tool Registry, Analysis Loop, Workspace
persistence — is described by the spec and the design documents
(`src/unnamed/part_020`, `part_003`, `part_004`) but its source is not part
of the repository; only the TypeScript consumers of its data are.  The
definitions in this section are therefore modelled from the spec and are
marked as such.
-/

/-- Modelled from the spec (§4.2): the tagged union a Provider's `plan`
call returns: `InvokeTool`, `AskUser`, `FinalAnswer`, `NeedMoreIterations`. -/
inductive PlanDecision where
  | invokeTool (name : String) (params : Json)
  | askUser (prompt : String)
  | finalAnswer (text : String) (dat : Json)
  | needMoreIterations (why : String)

/-- Modelled from the spec (§7) and `AnalysisError` in the design document
(`src/unnamed/part_020`, lines 237–255): the named terminal failure
reasons, among them `MaxIterationsExceeded { max }`. -/
inductive AnalysisError where
  | maxIterationsExceeded (max : Nat)
  | llmProvider (msg : String)
  | userCancelled
deriving DecidableEq

/-- Modelled from the spec (§4.3): how one run of the analysis loop ends. -/
inductive AnalysisOutcome where
  | answered (text : String)
  | failed (e : AnalysisError)
  | suspended (prompt : String)
deriving DecidableEq

/-- `--max-iterations <n>`: Maximum query iterations (default: 10), from the
design document (`src/unnamed/part_020`, line 17). -/
def defaultMaxIterations : Nat := 10

/-- Modelled from the spec (§4.1): `execute` wraps every tool handler so
that success is recorded in `result` and any failure becomes a recorded
`error`, never an unhandled fault. -/
def recordToolExecution (name : String) (params : Json)
    (outcome : Except String Json) (durationMs : Option Int) : ToolExecution :=
  match outcome with
  | .ok r =>
      { tool_name := name, parameters := params, result := some r,
        error := none, execution_time_ms := durationMs }
  | .error e =>
      { tool_name := name, parameters := params, result := none,
        error := some e, execution_time_ms := durationMs }

/-- Modelled from the spec (§3, §4.3): the ledger step recording one tool
invocation. -/
def toolStep (idx : Nat) (te : ToolExecution) : ConversationStep :=
  { step_id := idx, step_type := .ToolExecution, llm_request := none,
    llm_response := none, tool_calls := [te], results := none,
    status := if te.error.isSome then .Failed else .Completed,
    created_at := "" }

/-- Modelled from the spec (§4.3): the terminal step written when the
iteration cap is exceeded. -/
def failStep (idx : Nat) : ConversationStep :=
  { step_id := idx, step_type := .Synthesis, llm_request := none,
    llm_response := none, tool_calls := [],
    results := some { data := none
                      summary := some "Maximum iterations exceeded"
                      next_action := none },
    status := .Failed, created_at := "" }

/-- Modelled from the spec (§4.3): the terminal Synthesis step for a
`FinalAnswer`. -/
def synthesisStep (idx : Nat) (text : String) (dat : Json) : ConversationStep :=
  { step_id := idx, step_type := .Synthesis, llm_request := none,
    llm_response := some text, tool_calls := [],
    results := some { data := some dat
                      summary := some text
                      next_action := none },
    status := .Completed, created_at := "" }

/-- Modelled from the spec (§4.3): the step recording an `AskUser`
suspension. -/
def askStep (idx : Nat) (prompt : String) : ConversationStep :=
  { step_id := idx, step_type := .Planning, llm_request := none,
    llm_response := some prompt, tool_calls := [], results := none,
    status := .Completed, created_at := "" }

/-- Modelled from the spec (§4.3): the Planning step recording a
`NeedMoreIterations` decision. -/
def planningStep (idx : Nat) (why : String) : ConversationStep :=
  { step_id := idx, step_type := .Planning, llm_request := none,
    llm_response := some why, tool_calls := [], results := none,
    status := .Completed, created_at := "" }

/-- Modelled from the spec (§4.3): the analysis loop with its remaining
iteration budget.  `iter` counts the iterations performed so far; when the
budget is exhausted the loop writes a `Failed` terminal step with reason
`MaxIterationsExceeded`.  Structural recursion on the budget — the loop
cannot run forever.  Returns the outcome, the ledger and the number of
iterations performed. -/
def runLoopAux (provider : Nat → PlanDecision)
    (tools : String → Json → Except String Json) (maxIter : Nat) :
    Nat → Nat → List ConversationStep →
      AnalysisOutcome × List ConversationStep × Nat
  | iter, 0, steps =>
      (.failed (.maxIterationsExceeded maxIter), steps ++ [failStep iter], iter)
  | iter, rem + 1, steps =>
      match provider iter with
      | .invokeTool name params =>
          runLoopAux provider tools maxIter (iter + 1) rem
            (steps ++
              [toolStep iter (recordToolExecution name params
                (tools name params) none)])
      | .askUser prompt =>
          (.suspended prompt, steps ++ [askStep iter prompt], iter)
      | .finalAnswer text dat =>
          (.answered text, steps ++ [synthesisStep iter text dat], iter)
      | .needMoreIterations why =>
          runLoopAux provider tools maxIter (iter + 1) rem
            (steps ++ [planningStep iter why])

/-- Modelled from the spec (§4.3): run the analysis loop from scratch with
an iteration bound. -/
def runLoop (provider : Nat → PlanDecision)
    (tools : String → Json → Except String Json) (maxIter : Nat) :
    AnalysisOutcome × List ConversationStep × Nat :=
  runLoopAux provider tools maxIter 0 maxIter []

/-- Modelled from the spec (§3): the Conversation ledger produced by one
run of the analysis loop for a user query. -/
def runConversation (provider : Nat → PlanDecision)
    (tools : String → Json → Except String Json) (maxIter : Nat)
    (query : String) : Conversation :=
  { id := 0, user_query := query,
    steps := (runLoop provider tools maxIter).2.1,
    created_at := "", updated_at := "" }

/-- Exactly one of `result` / `error` is set on a recorded tool execution. -/
def ResultErrorExclusive (te : ToolExecution) : Prop :=
  (te.result.isSome = true ∧ te.error = none)
  ∨ (te.result = none ∧ te.error.isSome = true)

/-! ### Step status lifecycle -/

/-- `getProgressPercentage` from `ToolExecutionTimeline`
(`src/unnamed/part_007`, lines 66–71): `Completed` and `Failed` render as
100%, `InProgress` as 50%, anything else as 0%. -/
def getProgressPercentage (step : ConversationStep) : Nat :=
  if step.status = .Completed then 100
  else if step.status = .Failed then 100
  else if step.status = .InProgress then 50
  else 0

/-- Modelled from the spec (§3 invariant, §4.3): the status updates the
engine performs over a step's lifetime — created `Pending`, started
`InProgress`, finished `Completed` or `Failed`.  These are the only
transitions. -/
inductive StepAdvance : StepStatus → StepStatus → Prop where
  | start : StepAdvance .Pending .InProgress
  | complete : StepAdvance .InProgress .Completed
  | fail : StepAdvance .InProgress .Failed

/-! ### Workspace persistence, modelled from the spec (§4.5) -/

/-- Modelled from the spec (§3): the status of an Objective. -/
inductive ObjectiveStatus where
  | Active | Completed | Cancelled | Failed
deriving DecidableEq

/-- Modelled from the spec (§4.5): how a loaded objective resumes — an
objective `Active` at save time comes back in a `Pending`-replan state. -/
inductive ResumeState where
  | notResuming
  | pendingReplan
deriving DecidableEq

/-- Modelled from the spec (§3): a runtime Objective with its conversation
ledger (ordered step sequence) and its resume state. -/
structure Objective where
  id : Nat
  text : String
  status : ObjectiveStatus
  steps : List ConversationStep
  resume : ResumeState

/-- Modelled from the spec (§3): a Workspace owning its Objectives. -/
structure Workspace where
  name : String
  objectives : List Objective

/-- Modelled from the spec (§4.5): the persisted form of one Objective —
the full identifier/text/status/ledger graph, without runtime-only state. -/
structure SavedObjective where
  id : Nat
  text : String
  status : ObjectiveStatus
  steps : List ConversationStep

/-- Modelled from the spec (§4.5): the persisted form of a Workspace. -/
structure SavedWorkspace where
  name : String
  objectives : List SavedObjective

/-- Modelled from the spec (§4.5): `save(workspace)` writes the full
Objective/Conversation/Step/ToolExecution graph. -/
def save (w : Workspace) : SavedWorkspace :=
  { name := w.name
    objectives := w.objectives.map (fun o => ⟨o.id, o.text, o.status, o.steps⟩) }

/-- Modelled from the spec (§4.5): `load(path)` reconstructs the workspace,
including in-flight Objective status: an Objective that was `Active` at save
time is resumed in a `Pending`-replan state, never silently marked
complete. -/
def load (s : SavedWorkspace) : Workspace :=
  { name := s.name
    objectives := s.objectives.map (fun o =>
      ⟨o.id, o.text, o.status, o.steps,
        if o.status = .Active then .pendingReplan else .notResuming⟩) }

end Pixlie

/-- A bare step with a given status, used to instantiate the lifecycle
theorems. -/
def Pixlie.stepWithStatus (idx : Nat) (s : Pixlie.StepStatus) :
    Pixlie.ConversationStep :=
  { step_id := idx, step_type := .Planning, llm_request := none,
    llm_response := none, tool_calls := [], results := none,
    status := s, created_at := "" }

namespace Pixlie

theorem jsSliceIdx_of_bounds {len : Nat} {i : Int} (h0 : 0 ≤ i)
    (h1 : i ≤ (len : Int)) : jsSliceIdx len i = i.toNat := by
  unfold jsSliceIdx
  split
  · omega
  · omega

theorem jsSlice_eq_drop_take {s : List Char} {a b : Int} (ha : 0 ≤ a)
    (hab : a ≤ b) (hb : b ≤ (s.length : Int)) :
    jsSlice s a b = (s.drop a.toNat).take (b.toNat - a.toNat) := by
  unfold jsSlice
  rw [jsSliceIdx_of_bounds ha (le_trans hab hb), jsSliceIdx_of_bounds (le_trans ha hab) hb]

theorem jsSlice_append {s : List Char} {a b c : Int} (ha : 0 ≤ a) (hab : a ≤ b)
    (hbc : b ≤ c) (hc : c ≤ (s.length : Int)) :
    jsSlice s a b ++ jsSlice s b c = jsSlice s a c := by
  rw [jsSlice_eq_drop_take ha hab (le_trans hbc hc),
    jsSlice_eq_drop_take (le_trans ha hab) hbc hc,
    jsSlice_eq_drop_take ha (le_trans hab hbc) hc]
  have hdrop : s.drop b.toNat = (s.drop a.toNat).drop (b.toNat - a.toNat) := by
    rw [List.drop_drop]
    congr 1
    omega
  rw [hdrop, ← List.take_add]
  congr 1
  omega

theorem jsSlice_empty_of_ge {s : List Char} {a b : Int} (hb : 0 ≤ b)
    (hab : b ≤ a) : jsSlice s a b = [] := by
  unfold jsSlice jsSliceIdx
  split <;> split <;> simp <;> omega

theorem jsSlice_full (s : List Char) : jsSlice s 0 (s.length : Int) = s := by
  rw [jsSlice_eq_drop_take le_rfl (by positivity) le_rfl]
  simp

/-- Invariant of the `TextHighlighter` loop: starting from cursor `pos` with a
sorted, in-bounds, pairwise-disjoint highlight list, the produced segments
concatenate to `text.slice(pos)` and every highlighted segment carries one of
the highlights together with its exact slice. -/
theorem segmentsGo_spec (text : List Char) (l : List EntityReference) :
    ∀ pos : Int, 0 ≤ pos → pos ≤ (text.length : Int) →
      (∀ h ∈ l, pos ≤ h.start_offset ∧ h.start_offset < h.end_offset ∧
        h.end_offset ≤ (text.length : Int)) →
      l.Pairwise (fun a b => a.end_offset ≤ b.start_offset) →
      (((TextHighlighter.segmentsGo text l pos).map HighlightSegment.text).flatten
          = jsSlice text pos (text.length : Int))
      ∧ ∀ sg ∈ TextHighlighter.segmentsGo text l pos, sg.isHighlighted = true →
          ∃ h, h ∈ l ∧ sg.reference = some h ∧
            sg.text = jsSlice text h.start_offset h.end_offset := by
  induction l with
  | nil =>
    intro pos h0 hlen _ _
    constructor
    · unfold TextHighlighter.segmentsGo
      split
      · simp
      · rw [jsSlice_empty_of_ge (by positivity) (by omega)]
        simp
    · intro sg hsg hhl
      unfold TextHighlighter.segmentsGo at hsg
      split at hsg
      · simp at hsg
        rw [hsg] at hhl
        simp at hhl
      · simp at hsg
  | cons h rest ih =>
    intro pos h0 hlen hbounds hpw
    obtain ⟨hps, hse, hel⟩ := hbounds h (by simp)
    rw [List.pairwise_cons] at hpw
    obtain ⟨hhead, htail⟩ := hpw
    have hmax : max pos h.end_offset = h.end_offset := max_eq_right (by omega)
    obtain ⟨ihjoin, ihmem⟩ := ih h.end_offset (by omega) hel
      (fun g hg => ⟨hhead g hg, (hbounds g (List.mem_cons_of_mem _ hg)).2.1,
        (hbounds g (List.mem_cons_of_mem _ hg)).2.2⟩) htail
    have hcond : h.start_offset < (text.length : Int) ∧
        h.end_offset ≤ (text.length : Int) ∧ h.start_offset < h.end_offset :=
      ⟨by omega, hel, hse⟩
    have hexp : TextHighlighter.segmentsGo text (h :: rest) pos =
        (if pos < h.start_offset then
          [{ text := jsSlice text pos h.start_offset, isHighlighted := false,
             reference := none }]
         else []) ++
          { text := jsSlice text h.start_offset h.end_offset,
            isHighlighted := true, reference := some h } ::
            TextHighlighter.segmentsGo text rest h.end_offset := by
      simp only [TextHighlighter.segmentsGo]
      rw [if_pos hcond, hmax]
    constructor
    · rw [hexp]
      by_cases hgap : pos < h.start_offset
      · rw [if_pos hgap]
        simp only [List.map_append, List.map_cons, List.flatten_append,
          List.flatten_cons, List.map_nil, List.flatten_nil, List.append_nil]
        rw [ihjoin, jsSlice_append (by omega) (le_of_lt hse) hel le_rfl,
          jsSlice_append h0 (le_of_lt hgap) (by omega) le_rfl]
      · rw [if_neg hgap]
        have hpe : pos = h.start_offset := by omega
        simp only [List.nil_append, List.map_cons, List.flatten_cons]
        rw [ihjoin, jsSlice_append (by omega) (le_of_lt hse) hel le_rfl, hpe]
    · rw [hexp]
      intro sg hsg hhl
      rcases List.mem_append.mp hsg with hin | hin
      · by_cases hgap : pos < h.start_offset
        · rw [if_pos hgap] at hin
          simp at hin
          rw [hin] at hhl
          simp at hhl
        · rw [if_neg hgap] at hin
          simp at hin
      · rcases List.mem_cons.mp hin with hin | hin
        · exact ⟨h, by simp, by rw [hin], by rw [hin]⟩
        · obtain ⟨g, hg, href, htxt⟩ := ihmem sg hin hhl
          exact ⟨g, List.mem_cons_of_mem _ hg, href, htxt⟩

/-! ### Basic facts about the wire format -/

theorem isPrefixOf_append_self (a b : JStr) : a.isPrefixOf (a ++ b) = true :=
  List.isPrefixOf_iff_prefix.mpr (List.prefix_append a b)

theorem drop_six_marker (x : JStr) : (dataMarker ++ x).drop 6 = x := by
  have h : dataMarker.length = 6 := rfl
  rw [← h, List.drop_left]

theorem contentEventData_assoc (c : JStr) :
    contentEventData c = contentOpen ++ (c ++ contentClose) := by
  rw [contentEventData, List.append_assoc]

theorem contentEventData_length (c : JStr) :
    (contentEventData c).length
      = contentOpen.length + c.length + contentClose.length := by
  simp [contentEventData]
  omega

theorem contentEventData_ne_doneMarker (c : JStr) :
    contentEventData c ≠ doneMarker := by
  intro h
  have hlen := congrArg List.length h
  rw [contentEventData_length] at hlen
  have h1 : contentOpen.length = 29 := rfl
  have h2 : contentClose.length = 2 := rfl
  have h3 : doneMarker.length = 6 := rfl
  omega

theorem jsonParse_contentEventData (c : JStr) (hc : isSimple c = true) :
    jsonParse (contentEventData c) = some (.content c) := by
  have hpre : contentOpen.isPrefixOf (contentEventData c) = true := by
    rw [contentEventData_assoc]
    exact isPrefixOf_append_self _ _
  have hsuf : contentClose.isSuffixOf (contentEventData c) = true := by
    rw [contentEventData]
    exact List.isSuffixOf_iff_suffix.mpr (List.suffix_append _ _)
  have hlen : contentOpen.length + contentClose.length
      ≤ (contentEventData c).length := by
    rw [contentEventData_length]
    omega
  have hcount : (contentEventData c).length - contentOpen.length
      - contentClose.length = c.length := by
    rw [contentEventData_length]
    omega
  have hmid : ((contentEventData c).drop contentOpen.length).take
      ((contentEventData c).length - contentOpen.length - contentClose.length)
        = c := by
    rw [hcount, contentEventData_assoc, List.drop_left, List.take_left]
  rw [jsonParse, if_pos ⟨hpre, hsuf, hlen, by rw [hmid]; exact hc⟩, hmid]

theorem jsonParse_doneMarker : jsonParse doneMarker = none := by decide

theorem isDataLine_contentLine (c : JStr) : isDataLine (contentLine c) = true :=
  isPrefixOf_append_self _ _

theorem isDataLine_doneLine : isDataLine doneLine = true :=
  isPrefixOf_append_self _ _

theorem isDataLine_nil : isDataLine [] = false := rfl

theorem isDoneLine_contentLine (c : JStr) :
    isDoneLine (contentLine c) = false := by
  rw [isDoneLine, contentLine, drop_six_marker]
  simp [contentEventData_ne_doneMarker c]

/-! ### Splitting reads into lines -/

theorem splitOnNl_append_cons (l r : JStr) (hl : '\n' ∉ l) :
    splitOnNl (l ++ '\n' :: r) = l :: splitOnNl r := by
  induction l with
  | nil => simp [splitOnNl]
  | cons c cs ih =>
    have hc : ¬ c = '\n' := fun h => hl (by simp [h])
    have ihl : splitOnNl (cs ++ '\n' :: r) = cs :: splitOnNl r :=
      ih (fun h => hl (by simp [h]))
    rw [List.cons_append, splitOnNl, if_neg hc, ihl]

theorem splitOnNl_linesBytes (ls : List JStr) (h : ∀ l ∈ ls, '\n' ∉ l) :
    splitOnNl (linesBytes ls) = ls ++ [[]] := by
  induction ls with
  | nil => rfl
  | cons l rest ih =>
    have hb : linesBytes (l :: rest) = l ++ '\n' :: linesBytes rest := by
      rw [linesBytes, List.map_cons, List.flatten_cons, List.append_assoc]
      rfl
    rw [hb, splitOnNl_append_cons l _ (h l (by simp)),
      ih (fun g hg => h g (by simp [hg]))]
    rfl

/-! ### The per-line state machine -/

theorem processLines_filter (ls : List JStr) (st : ClientState) :
    processLines ls st = processLines (ls.filter isDataLine) st := by
  induction ls generalizing st with
  | nil => rfl
  | cons l rest ih =>
    by_cases hl : dataMarker.isPrefixOf l = true
    · have hl2 : isDataLine l = true := hl
      rw [List.filter_cons_of_pos hl2]
      simp only [processLines]
      rw [if_pos hl, if_pos hl]
      by_cases hd : l.drop 6 = doneMarker
      · rw [if_pos hd, if_pos hd]
      · rw [if_neg hd, if_neg hd]
        exact ih _
    · have hl2 : ¬ isDataLine l = true := hl
      rw [List.filter_cons_of_neg hl2]
      simp only [processLines]
      rw [if_neg hl]
      exact ih st

theorem processLines_append_of_no_done (ls₁ ls₂ : List JStr)
    (h : ∀ l ∈ ls₁, isDoneLine l = false) (st : ClientState) :
    processLines (ls₁ ++ ls₂) st = processLines ls₂ (processLines ls₁ st) := by
  induction ls₁ generalizing st with
  | nil => rfl
  | cons l rest ih =>
    simp only [List.cons_append, processLines]
    by_cases hl : dataMarker.isPrefixOf l = true
    · rw [if_pos hl, if_pos hl]
      have hd : ¬ l.drop 6 = doneMarker := by
        have hz := h l (by simp)
        rw [isDoneLine, hl] at hz
        simpa using hz
      rw [if_neg hd, if_neg hd]
      exact ih (fun g hg => h g (by simp [hg])) _
    · rw [if_neg hl, if_neg hl]
      exact ih (fun g hg => h g (by simp [hg])) st

theorem processLines_done (pre post : List JStr)
    (h : ∀ l ∈ pre, isDoneLine l = false) (st : ClientState) :
    processLines (pre ++ doneLine :: post) st
      = { processLines pre st with isStreaming := false } := by
  rw [processLines_append_of_no_done pre _ h st]
  have hp : List.isPrefixOf dataMarker doneLine = true :=
    isPrefixOf_append_self dataMarker doneMarker
  have hd : doneLine.drop 6 = doneMarker := drop_six_marker doneMarker
  simp only [processLines]
  rw [if_pos hp, if_pos hd]

theorem processLines_contentLines (cs : List JStr) (st : ClientState)
    (h : ∀ c ∈ cs, isSimple c = true) :
    processLines (cs.map contentLine) st
      = { st with content := st.content ++ cs.flatten } := by
  induction cs generalizing st with
  | nil =>
    simp only [List.map_nil, List.flatten_nil, List.append_nil]
    rfl
  | cons c rest ih =>
    simp only [List.map_cons, processLines, contentLine]
    rw [if_pos (isPrefixOf_append_self dataMarker (contentEventData c)),
      drop_six_marker]
    rw [if_neg (contentEventData_ne_doneMarker c),
      jsonParse_contentEventData c (h c (by simp))]
    rw [ih _ (fun g hg => h g (by simp [hg]))]
    simp [List.append_assoc]

/-! ### Chunked processing -/

theorem processChunks_eq_lineGroups (lss : List (List JStr)) (st : ClientState)
    (h : ∀ g ∈ lss, ∀ l ∈ g, '\n' ∉ l) :
    processChunks (lss.map linesBytes) st
      = processLineGroups (lss.map (fun g => g.filter isDataLine)) st := by
  induction lss generalizing st with
  | nil => rfl
  | cons g rest ih =>
    simp only [List.map_cons, processChunks, processLineGroups]
    rw [splitOnNl_linesBytes g (h g (by simp)),
      processLines_filter, List.filter_append]
    have hnil : List.filter isDataLine [([] : JStr)] = [] := rfl
    rw [hnil, List.append_nil, ← processLines_filter]
    exact ih _ (fun g2 hg2 => h g2 (by simp [hg2]))

theorem processLineGroups_of_flatten_nil (gs : List (List JStr))
    (h : gs.flatten = []) (st : ClientState) :
    processLineGroups gs st = st := by
  induction gs generalizing st with
  | nil => rfl
  | cons g rest ih =>
    rw [List.flatten_cons, List.append_eq_nil] at h
    obtain ⟨h1, h2⟩ := h
    subst h1
    exact ih h2 st

theorem processLineGroups_main (gs : List (List JStr)) :
    ∀ (st : ClientState) (rem : List JStr), (∀ c ∈ rem, isSimple c = true) →
      gs.flatten = rem.map contentLine ++ [doneLine] →
      processLineGroups gs st
        = { st with
              content := st.content ++ rem.flatten,
              isStreaming := false } := by
  induction gs with
  | nil =>
    intro st rem _ h
    exfalso
    have hlen := congrArg List.length h
    simp at hlen
  | cons g rest ih =>
    intro st rem hsimp h
    rw [List.flatten_cons] at h
    rcases List.append_eq_append_iff.mp h with ⟨a2, h1, h2⟩ | ⟨c2, h1, h2⟩
    · obtain ⟨rem₁, rem₂, hrem, hg, ha⟩ := List.map_eq_append_iff.mp h1
      subst hrem
      rw [processLineGroups, ← hg,
        processLines_contentLines rem₁ st
          (fun c hc => hsimp c (List.mem_append_left _ hc)),
        ih _ rem₂ (fun c hc => hsimp c (List.mem_append_right _ hc))
          (by rw [h2, ← ha])]
      simp [List.append_assoc]
    · cases c2 with
      | nil =>
        rw [List.append_nil] at h1
        rw [List.nil_append] at h2
        rw [processLineGroups, h1,
          processLines_contentLines rem st hsimp,
          ih _ [] (by simp) (by rw [← h2]; rfl)]
        simp
      | cons x xs =>
        have hflat := h2.symm
        rw [List.cons_append] at hflat
        obtain ⟨hx1, hx2⟩ := List.cons_eq_cons.mp hflat
        rw [List.append_eq_nil] at hx2
        obtain ⟨hxs, hrest⟩ := hx2
        subst hx1
        subst hxs
        rw [processLineGroups, h1,
          processLines_done (rem.map contentLine) []
            (by
              intro l hl
              obtain ⟨c, _, hcl⟩ := List.mem_map.mp hl
              rw [← hcl]
              exact isDoneLine_contentLine c) st,
          processLines_contentLines rem st hsimp,
          processLineGroups_of_flatten_nil rest hrest]

/-! ### The stream itself -/

theorem streamLines_filter (cs : List JStr) :
    (streamLines cs).filter isDataLine = cs.map contentLine ++ [doneLine] := by
  rw [streamLines, List.filter_append]
  have hdone : List.filter isDataLine [doneLine, []] = [doneLine] := by
    rw [List.filter_cons_of_pos isDataLine_doneLine,
      List.filter_cons_of_neg (by rw [isDataLine_nil]; simp), List.filter_nil]
  rw [hdone]
  congr 1
  induction cs with
  | nil => rfl
  | cons c rest ih =>
    rw [List.map_cons, List.flatten_cons, List.filter_append, ih,
      List.filter_cons_of_pos (isDataLine_contentLine c),
      List.filter_cons_of_neg (by rw [isDataLine_nil]; simp), List.filter_nil]
    rfl

theorem streamLines_no_newline (cs : List JStr)
    (h : ∀ c ∈ cs, isSimple c = true) :
    ∀ l ∈ streamLines cs, '\n' ∉ l := by
  intro l hl
  rw [streamLines, List.mem_append] at hl
  rcases hl with hl | hl
  · rw [List.mem_flatten] at hl
    obtain ⟨g, hg, hlg⟩ := hl
    obtain ⟨c, hc, hcg⟩ := List.mem_map.mp hg
    rw [← hcg] at hlg
    rcases List.mem_cons.mp hlg with hlc | hlc
    · subst hlc
      intro hmem
      rw [contentLine, contentEventData, List.mem_append, List.mem_append,
        List.mem_append] at hmem
      rcases hmem with hm | ((hm | hm) | hm)
      · exact absurd hm (by decide)
      · exact absurd hm (by decide)
      · have hall := List.all_eq_true.mp (h c hc) _ hm
        simp [simpleChar] at hall
      · exact absurd hm (by decide)
    · rcases List.mem_cons.mp hlc with hlc | hlc
      · subst hlc
        simp
      · simp at hlc
  · rcases List.mem_cons.mp hl with hl | hl
    · subst hl
      intro hmem
      rw [doneLine, List.mem_append] at hmem
      rcases hmem with hm | hm
      · exact absurd hm (by decide)
      · exact absurd hm (by decide)
    · rcases List.mem_cons.mp hl with hl | hl
      · subst hl
        simp
      · simp at hl

theorem contentEventOf_contentLine (c : JStr) (hc : isSimple c = true) :
    contentEventOf (contentLine c) = some c := by
  rw [contentEventOf, if_pos (isDataLine_contentLine c), contentLine,
    drop_six_marker, jsonParse_contentEventData c hc]

theorem contentEventOf_nil : contentEventOf [] = none := rfl

theorem contentEventOf_doneLine : contentEventOf doneLine = none := by
  rw [contentEventOf, if_pos isDataLine_doneLine, doneLine, drop_six_marker,
    jsonParse_doneMarker]

theorem filterMap_contentPairs (cs : List JStr)
    (h : ∀ c ∈ cs, isSimple c = true) :
    List.filterMap contentEventOf
      ((cs.map (fun c => [contentLine c, []])).flatten) = cs := by
  induction cs with
  | nil => rfl
  | cons c rest ih =>
    rw [List.map_cons, List.flatten_cons, List.filterMap_append]
    have hpair : List.filterMap contentEventOf [contentLine c, []] = [c] := by
      simp [List.filterMap_cons, contentEventOf_contentLine c (h c (by simp)),
        contentEventOf_nil]
    rw [hpair, ih (fun g hg => h g (by simp [hg]))]
    rfl

theorem contentEventsOf_streamLines (cs : List JStr)
    (h : ∀ c ∈ cs, isSimple c = true) :
    contentEventsOf (streamLines cs) = cs := by
  rw [streamLines, contentEventsOf, List.filterMap_append]
  have hdone : List.filterMap contentEventOf [doneLine, []] = [] := by
    simp [List.filterMap_cons, contentEventOf_doneLine, contentEventOf_nil]
  rw [hdone, List.append_nil, filterMap_contentPairs cs h]

theorem recordToolExecution_exclusive (name : String) (params : Json)
    (outcome : Except String Json) (dur : Option Int) :
    ResultErrorExclusive (recordToolExecution name params outcome dur) := by
  cases outcome with
  | ok r => exact Or.inl ⟨rfl, rfl⟩
  | error e => exact Or.inr ⟨rfl, rfl⟩

theorem runLoopAux_exclusive (provider : Nat → PlanDecision)
    (tools : String → Json → Except String Json) (maxIter : Nat) :
    ∀ (rem iter : Nat) (steps : List ConversationStep),
      (∀ step ∈ steps, ∀ te ∈ step.tool_calls, ResultErrorExclusive te) →
      ∀ step ∈ (runLoopAux provider tools maxIter iter rem steps).2.1,
        ∀ te ∈ step.tool_calls, ResultErrorExclusive te := by
  intro rem
  induction rem with
  | zero =>
    intro iter steps hsteps step hstep te hte
    rw [runLoopAux] at hstep
    rcases List.mem_append.mp hstep with hs | hs
    · exact hsteps step hs te hte
    · rcases List.mem_singleton.mp hs with rfl
      simp [failStep] at hte
  | succ rem ih =>
    intro iter steps hsteps step hstep te hte
    rw [runLoopAux] at hstep
    cases hp : provider iter with
    | invokeTool name params =>
      rw [hp] at hstep
      refine ih (iter + 1) _ ?_ step hstep te hte
      intro s hs t ht
      rcases List.mem_append.mp hs with hs | hs
      · exact hsteps s hs t ht
      · rcases List.mem_singleton.mp hs with rfl
        rcases List.mem_singleton.mp ht with rfl
        exact recordToolExecution_exclusive _ _ _ _
    | askUser prompt =>
      rw [hp] at hstep
      rcases List.mem_append.mp hstep with hs | hs
      · exact hsteps step hs te hte
      · rcases List.mem_singleton.mp hs with rfl
        simp [askStep] at hte
    | finalAnswer text dat =>
      rw [hp] at hstep
      rcases List.mem_append.mp hstep with hs | hs
      · exact hsteps step hs te hte
      · rcases List.mem_singleton.mp hs with rfl
        simp [synthesisStep] at hte
    | needMoreIterations why =>
      rw [hp] at hstep
      refine ih (iter + 1) _ ?_ step hstep te hte
      intro s hs t ht
      rcases List.mem_append.mp hs with hs | hs
      · exact hsteps s hs t ht
      · rcases List.mem_singleton.mp hs with rfl
        simp [planningStep] at ht

theorem runLoopAux_always_invoke (provider : Nat → PlanDecision)
    (tools : String → Json → Except String Json) (maxIter : Nat)
    (hp : ∀ i, ∃ n p, provider i = .invokeTool n p) :
    ∀ (rem iter : Nat) (steps : List ConversationStep),
      (runLoopAux provider tools maxIter iter rem steps).1
          = .failed (.maxIterationsExceeded maxIter)
      ∧ (runLoopAux provider tools maxIter iter rem steps).2.2
          = iter + rem := by
  intro rem
  induction rem with
  | zero =>
    intro iter steps
    rw [runLoopAux]
    exact ⟨rfl, rfl⟩
  | succ rem ih =>
    intro iter steps
    obtain ⟨n, p, hi⟩ := hp iter
    rw [runLoopAux, hi]
    have h := ih (iter + 1) (steps ++
      [toolStep iter (recordToolExecution n p (tools n p) none)])
    exact ⟨h.1, by rw [h.2]; omega⟩

theorem stepAdvance_progress_lt {x y : StepStatus} (h : StepAdvance x y)
    (a b : ConversationStep) (ha : a.status = x) (hb : b.status = y) :
    getProgressPercentage a < getProgressPercentage b := by
  cases h <;> simp [getProgressPercentage, ha, hb]

end Pixlie

/-- C8: for any text and any list of highlight references whose offsets lie
within the text (`0 ≤ start < end ≤ text.length`) and which are pairwise
non-overlapping, the segments computed by `TextHighlighter` concatenate, in
order, to exactly the original text, and every highlighted segment carries one
of the highlights with text equal to `text.slice(start_offset, end_offset)`. -/
theorem c8_textHighlighter_segments (text : List Char)
    (hs : List Pixlie.EntityReference)
    (hbounds : ∀ h ∈ hs, 0 ≤ h.start_offset ∧ h.start_offset < h.end_offset ∧
      h.end_offset ≤ (text.length : Int))
    (hdisj : hs.Pairwise (fun a b => a.end_offset ≤ b.start_offset ∨
      b.end_offset ≤ a.start_offset)) :
    (((Pixlie.TextHighlighter.segments text hs).map
        Pixlie.HighlightSegment.text).flatten = text)
    ∧ ∀ sg ∈ Pixlie.TextHighlighter.segments text hs, sg.isHighlighted = true →
        ∃ h, h ∈ hs ∧ sg.reference = some h ∧
          sg.text = Pixlie.jsSlice text h.start_offset h.end_offset := by
  by_cases hemp : hs.isEmpty
  · rw [Pixlie.TextHighlighter.segments, if_pos hemp]
    constructor
    · simp
    · intro sg hsg hhl
      simp at hsg
      rw [hsg] at hhl
      simp at hhl
  · rw [Pixlie.TextHighlighter.segments, if_neg hemp]
    haveI : IsTotal Pixlie.EntityReference
        (fun a b => a.start_offset ≤ b.start_offset) := ⟨fun a b => le_total _ _⟩
    haveI : IsTrans Pixlie.EntityReference
        (fun a b => a.start_offset ≤ b.start_offset) := ⟨fun _ _ _ => le_trans⟩
    have hperm : List.Perm (Pixlie.TextHighlighter.sortByStart hs) hs :=
      List.perm_insertionSort _ hs
    have hsorted : (Pixlie.TextHighlighter.sortByStart hs).Pairwise
        (fun a b => a.start_offset ≤ b.start_offset) :=
      List.sorted_insertionSort _ hs
    have hboundsS : ∀ h ∈ Pixlie.TextHighlighter.sortByStart hs,
        0 ≤ h.start_offset ∧ h.start_offset < h.end_offset ∧
          h.end_offset ≤ (text.length : Int) :=
      fun h hh => hbounds h (hperm.mem_iff.mp hh)
    have hdisjS : (Pixlie.TextHighlighter.sortByStart hs).Pairwise
        (fun a b => a.end_offset ≤ b.start_offset ∨ b.end_offset ≤ a.start_offset) :=
      (hperm.pairwise_iff (fun hab => Or.symm hab)).mpr hdisj
    have hsep : (Pixlie.TextHighlighter.sortByStart hs).Pairwise
        (fun a b => a.end_offset ≤ b.start_offset) := by
      refine List.Pairwise.imp_of_mem ?_ (hsorted.and hdisjS)
      intro a b ha hb hab
      obtain ⟨hle, hor⟩ := hab
      obtain ⟨_, halt, _⟩ := hboundsS a ha
      obtain ⟨_, hblt, _⟩ := hboundsS b hb
      rcases hor with hc | hc
      · exact hc
      · omega
    obtain ⟨hjoin, hmem⟩ := Pixlie.segmentsGo_spec text
      (Pixlie.TextHighlighter.sortByStart hs) 0 le_rfl (by positivity)
      (fun h hh => ⟨(hboundsS h hh).1, (hboundsS h hh).2.1, (hboundsS h hh).2.2⟩)
      hsep
    constructor
    · rw [hjoin, Pixlie.jsSlice_full]
    · intro sg hsg hhl
      obtain ⟨g, hg, href, htxt⟩ := hmem sg hsg hhl
      exact ⟨g, hperm.mem_iff.mp hg, href, htxt⟩

/-- C8 witness: the theorem applied to the text `"abcde"` with the single
highlight `[1, 3)`; the hypotheses hold by computation and the segments
concatenate back to the text. -/
theorem c8_textHighlighter_segments_witness :
    (((Pixlie.TextHighlighter.segments "abcde".toList
        [⟨1, 1, 1, "bc", 1, 3, none, ""⟩]).map
          Pixlie.HighlightSegment.text).flatten = "abcde".toList) := by
  have h := c8_textHighlighter_segments "abcde".toList
    [⟨1, 1, 1, "bc", 1, 3, none, ""⟩] (by decide) (by simp)
  exact h.1

/-- C2 counterexample: the claim quantifies over every chunking of the same
event stream into reads, but the client splits each read on `\n` in
isolation and never buffers a partial line, so a read boundary in the middle
of a `data:` line loses the event: the stream for the single chunk `A`
yields content `A` when delivered whole, and empty content when split after
its second byte. -/
theorem c2_counterexample_chunking :
    (Pixlie.streamBytes [['A']]).take 2 ++ (Pixlie.streamBytes [['A']]).drop 2
        = Pixlie.streamBytes [['A']]
    ∧ (Pixlie.processChunks [Pixlie.streamBytes [['A']]]
        Pixlie.initialClientState).content = ['A']
    ∧ (Pixlie.processChunks
        [(Pixlie.streamBytes [['A']]).take 2, (Pixlie.streamBytes [['A']]).drop 2]
        Pixlie.initialClientState).content = [] :=
  ⟨List.take_append_drop 2 _, by decide, by decide⟩

/-- C2 (amended): for every fixed provider stub and every chunking of the
event stream into reads that splits only at line boundaries, the assistant
message content produced by the streaming reader equals the concatenation, in
delivery order, of the `content` fields of all `content` events, and this
equals the non-streamed `FinalAnswer` text. -/
theorem c2_streaming_content_concat (P : Pixlie.ProviderStub)
    (lss : List (List Pixlie.JStr))
    (hpart : lss.flatten = Pixlie.streamLines P.chunks) :
    (Pixlie.processChunks (lss.map Pixlie.linesBytes)
        Pixlie.initialClientState).content
      = (Pixlie.contentEventsOf (Pixlie.streamLines P.chunks)).flatten
    ∧ (Pixlie.processChunks (lss.map Pixlie.linesBytes)
        Pixlie.initialClientState).content = P.finalAnswerText := by
  have hsimple := P.chunks_simple
  have hnl : ∀ g ∈ lss, ∀ l ∈ g, '\n' ∉ l := by
    intro g hg l hl
    exact Pixlie.streamLines_no_newline P.chunks hsimple l
      (by rw [← hpart]; exact List.mem_flatten.mpr ⟨g, hg, hl⟩)
  rw [Pixlie.processChunks_eq_lineGroups lss _ hnl]
  have hfilter : (lss.map (fun g => g.filter Pixlie.isDataLine)).flatten
      = P.chunks.map Pixlie.contentLine ++ [Pixlie.doneLine] := by
    rw [← List.filter_flatten, hpart, Pixlie.streamLines_filter]
  rw [Pixlie.processLineGroups_main _ Pixlie.initialClientState P.chunks
    hsimple hfilter]
  constructor
  · rw [Pixlie.contentEventsOf_streamLines P.chunks hsimple]
    rfl
  · rw [← P.chunks_flatten]
    rfl

/-- C2 witness: the amended theorem at the stub answering `42` with the
stream delivered as a single read. -/
theorem c2_streaming_content_concat_witness :
    (Pixlie.processChunks
        [Pixlie.linesBytes (Pixlie.streamLines Pixlie.c2Stub.chunks)]
        Pixlie.initialClientState).content = ['4', '2'] := by
  have h := c2_streaming_content_concat Pixlie.c2Stub
    [Pixlie.streamLines Pixlie.c2Stub.chunks] (by simp)
  exact h.2

/-- C5 counterexample: on `data: [DONE]` the client breaks out of the
per-read line loop but keeps reading, so the claim that no further content is
ever appended after the sentinel fails: a content event delivered in a later
read is still appended (while `isStreaming` stays `false`). -/
theorem c5_counterexample_content_after_done :
    (Pixlie.processChunks
        [Pixlie.linesBytes [Pixlie.doneLine, []],
         Pixlie.linesBytes [Pixlie.contentLine ['A'], []]]
        Pixlie.initialClientState).isStreaming = false
    ∧ (Pixlie.processChunks
        [Pixlie.linesBytes [Pixlie.doneLine, []],
         Pixlie.linesBytes [Pixlie.contentLine ['A'], []]]
        Pixlie.initialClientState).content = ['A'] :=
  ⟨by decide, by decide⟩

/-- C5 (amended): receiving the `data: [DONE]` sentinel marks the streaming
assistant message as no longer streaming and skips the remaining lines of the
same read; however, content events delivered in later reads are still
appended to the message. -/
theorem c5_done_sentinel (pre post : List Pixlie.JStr) (st : Pixlie.ClientState)
    (hpre : ∀ l ∈ pre, Pixlie.isDoneLine l = false) (c : Pixlie.JStr)
    (hc : Pixlie.isSimple c = true) :
    Pixlie.processLines (pre ++ Pixlie.doneLine :: post) st
        = { Pixlie.processLines pre st with isStreaming := false }
    ∧ (Pixlie.processChunks
        [Pixlie.linesBytes [Pixlie.doneLine, []],
         Pixlie.linesBytes [Pixlie.contentLine c, []]] st).content
        = st.content ++ c := by
  constructor
  · exact Pixlie.processLines_done pre post hpre st
  · have h1 : Pixlie.splitOnNl (Pixlie.linesBytes [Pixlie.doneLine, []])
        = [Pixlie.doneLine, [], []] :=
      Pixlie.splitOnNl_linesBytes [Pixlie.doneLine, []] (by decide)
    have hnl : ∀ l ∈ [Pixlie.contentLine c, []], '\n' ∉ l := by
      intro l hl
      rcases List.mem_cons.mp hl with hl | hl
      · subst hl
        exact Pixlie.streamLines_no_newline [c]
          (by intro x hx; rcases List.mem_singleton.mp hx with rfl; exact hc)
          (Pixlie.contentLine c) (by simp [Pixlie.streamLines])
      · rcases List.mem_singleton.mp hl with rfl
        simp
    have h2 : Pixlie.splitOnNl (Pixlie.linesBytes [Pixlie.contentLine c, []])
        = [Pixlie.contentLine c, [], []] :=
      Pixlie.splitOnNl_linesBytes [Pixlie.contentLine c, []] hnl
    show (Pixlie.processLines _ (Pixlie.processLines _ st)).content = _
    rw [h1, h2]
    have hdone : Pixlie.processLines [Pixlie.doneLine, [], []] st
        = { st with isStreaming := false } := by
      have h := Pixlie.processLines_done [] [[], []] (by simp) st
      simpa using h
    rw [hdone]
    have hcontent : Pixlie.processLines [Pixlie.contentLine c, [], []]
        { st with isStreaming := false }
        = { st with isStreaming := false, content := st.content ++ c } := by
      have hsplit := Pixlie.processLines_append_of_no_done
        [Pixlie.contentLine c] [[], []]
        (by
          intro l hl
          rcases List.mem_singleton.mp hl with rfl
          exact Pixlie.isDoneLine_contentLine c)
        { st with isStreaming := false }
      rw [List.singleton_append] at hsplit
      rw [hsplit]
      have hone := Pixlie.processLines_contentLines [c]
        { st with isStreaming := false }
        (by intro x hx; rcases List.mem_singleton.mp hx with rfl; exact hc)
      rw [List.map_singleton] at hone
      rw [hone]
      simp
      rfl
    rw [hcontent]

/-- C5 witness: the amended theorem at an empty prefix and the single-chunk
content `A`. -/
theorem c5_done_sentinel_witness :
    Pixlie.processLines ([] ++ Pixlie.doneLine :: []) Pixlie.initialClientState
        = { Pixlie.processLines [] Pixlie.initialClientState with
              isStreaming := false }
    ∧ (Pixlie.processChunks
        [Pixlie.linesBytes [Pixlie.doneLine, []],
         Pixlie.linesBytes [Pixlie.contentLine ['A'], []]]
        Pixlie.initialClientState).content
        = Pixlie.initialClientState.content ++ ['A'] :=
  c5_done_sentinel [] [] Pixlie.initialClientState (by simp) ['A'] (by decide)

/-- C6: for a `data: <json>` line, the client handles exactly the two payload
shapes: a `content` event appends its content to the assistant message, a
`tool_execution` event replaces the displayed step, and a payload of any
other shape (or a parse failure) changes neither. -/
theorem c6_payload_dispatch (st : Pixlie.ClientState) (data : Pixlie.JStr) :
    (∀ c, Pixlie.jsonParse data = some (.content c) →
        Pixlie.processLines [Pixlie.dataMarker ++ data] st
          = { st with content := st.content ++ c })
    ∧ (∀ sj, Pixlie.jsonParse data = some (.toolExecution sj) →
        Pixlie.processLines [Pixlie.dataMarker ++ data] st
          = { st with toolStep := some sj })
    ∧ ((Pixlie.jsonParse data = some .other ∨ Pixlie.jsonParse data = none) →
        data ≠ Pixlie.doneMarker →
        Pixlie.processLines [Pixlie.dataMarker ++ data] st = st) := by
  refine ⟨?_, ?_, ?_⟩
  · intro c hparse
    have hne : ¬ data = Pixlie.doneMarker := by
      intro he
      rw [he, Pixlie.jsonParse_doneMarker] at hparse
      exact absurd hparse (by simp)
    simp only [Pixlie.processLines]
    rw [if_pos (Pixlie.isPrefixOf_append_self Pixlie.dataMarker data),
      Pixlie.drop_six_marker, if_neg hne, hparse]
  · intro sj hparse
    have hne : ¬ data = Pixlie.doneMarker := by
      intro he
      rw [he, Pixlie.jsonParse_doneMarker] at hparse
      exact absurd hparse (by simp)
    simp only [Pixlie.processLines]
    rw [if_pos (Pixlie.isPrefixOf_append_self Pixlie.dataMarker data),
      Pixlie.drop_six_marker, if_neg hne, hparse]
  · intro hparse hne
    simp only [Pixlie.processLines]
    rw [if_pos (Pixlie.isPrefixOf_append_self Pixlie.dataMarker data),
      Pixlie.drop_six_marker, if_neg hne]
    rcases hparse with hparse | hparse <;> rw [hparse]

/-- C6 witness: the dispatch theorem at a concrete content event. -/
theorem c6_payload_dispatch_witness :
    Pixlie.processLines
        [Pixlie.dataMarker ++ Pixlie.contentEventData ['h', 'i']]
        Pixlie.initialClientState
      = { Pixlie.initialClientState with content := ['h', 'i'] } := by
  have h := (c6_payload_dispatch Pixlie.initialClientState
    (Pixlie.contentEventData ['h', 'i'])).1 ['h', 'i'] (by decide)
  exact h

/-- C1: in every Conversation the engine produces, every `ToolExecution`
record of every step has exactly one of `result` / `error` non-null;
moreover `result` is set exactly on handler success and `error` exactly on
handler failure. -/
theorem c1_result_error_exclusive :
    (∀ (provider : Nat → Pixlie.PlanDecision)
        (tools : String → Pixlie.Json → Except String Pixlie.Json)
        (maxIter : Nat) (query : String),
      ∀ step ∈ (Pixlie.runConversation provider tools maxIter query).steps,
        ∀ te ∈ step.tool_calls, Pixlie.ResultErrorExclusive te)
    ∧ (∀ (name : String) (params r : Pixlie.Json) (dur : Option Int),
        (Pixlie.recordToolExecution name params (.ok r) dur).result = some r
        ∧ (Pixlie.recordToolExecution name params (.ok r) dur).error = none)
    ∧ (∀ (name : String) (params : Pixlie.Json) (e : String)
        (dur : Option Int),
        (Pixlie.recordToolExecution name params (.error e) dur).result = none
        ∧ (Pixlie.recordToolExecution name params (.error e) dur).error
            = some e) := by
  refine ⟨?_, fun name params r dur => ⟨rfl, rfl⟩,
    fun name params e dur => ⟨rfl, rfl⟩⟩
  intro provider tools maxIter query step hstep te hte
  exact Pixlie.runLoopAux_exclusive provider tools maxIter maxIter 0 []
    (by simp) step hstep te hte

/-- C1 witness: the exclusivity evaluated on the conversation produced by a
one-iteration run whose tool call succeeds with the row `42`. -/
theorem c1_result_error_exclusive_witness :
    Pixlie.ResultErrorExclusive
      (Pixlie.recordToolExecution "sqlite_query" Pixlie.Json.null
        (Except.ok (Pixlie.Json.num 42)) none) :=
  c1_result_error_exclusive.1
    (fun _ => .invokeTool "sqlite_query" Pixlie.Json.null)
    (fun _ _ => Except.ok (Pixlie.Json.num 42)) 1 "count authors"
    (Pixlie.toolStep 0 (Pixlie.recordToolExecution "sqlite_query"
      Pixlie.Json.null (Except.ok (Pixlie.Json.num 42)) none))
    (List.mem_cons_self _ _)
    (Pixlie.recordToolExecution "sqlite_query" Pixlie.Json.null
      (Except.ok (Pixlie.Json.num 42)) none)
    (List.mem_cons_self _ _)

/-- C3: with the default bound being 10, running the analysis loop against a
provider that always returns `InvokeTool` terminates after exactly
`max_iterations` iterations in a `Failed` terminal state with reason
`MaxIterationsExceeded`; the loop is structurally recursive on its budget and
can never run forever. -/
theorem c3_max_iterations (provider : Nat → Pixlie.PlanDecision)
    (tools : String → Pixlie.Json → Except String Pixlie.Json)
    (maxIter : Nat)
    (hp : ∀ i, ∃ n p, provider i = .invokeTool n p) :
    (Pixlie.runLoop provider tools maxIter).1
        = .failed (.maxIterationsExceeded maxIter)
    ∧ (Pixlie.runLoop provider tools maxIter).2.2 = maxIter
    ∧ Pixlie.defaultMaxIterations = 10 := by
  have h := Pixlie.runLoopAux_always_invoke provider tools maxIter hp maxIter 0 []
  exact ⟨h.1, by rw [Pixlie.runLoop, h.2]; omega, rfl⟩

/-- C3 witness: the loop with bound 2 and an always-`InvokeTool` provider
stops after exactly 2 iterations with `MaxIterationsExceeded`. -/
theorem c3_max_iterations_witness :
    (Pixlie.runLoop (fun _ => .invokeTool "sqlite_query" Pixlie.Json.null)
        (fun _ _ => Except.ok Pixlie.Json.null) 2).1
      = .failed (.maxIterationsExceeded 2)
    ∧ (Pixlie.runLoop (fun _ => .invokeTool "sqlite_query" Pixlie.Json.null)
        (fun _ _ => Except.ok Pixlie.Json.null) 2).2.2 = 2 := by
  have h := c3_max_iterations
    (fun _ => .invokeTool "sqlite_query" Pixlie.Json.null)
    (fun _ _ => Except.ok Pixlie.Json.null) 2
    (fun _ => ⟨"sqlite_query", Pixlie.Json.null, rfl⟩)
  exact ⟨h.1, h.2.1⟩

/-- C4: along any sequence of step-status updates the engine performs, the
status only moves forward through `Pending → InProgress → Completed/Failed`:
every later status renders a strictly larger progress percentage, so no
observed sequence of statuses ever regresses. -/
theorem c4_status_only_forward (steps : List Pixlie.ConversationStep)
    (h : List.Chain' (fun a b => Pixlie.StepAdvance a.status b.status) steps) :
    List.Pairwise
      (fun a b =>
        Pixlie.getProgressPercentage a < Pixlie.getProgressPercentage b)
      steps := by
  haveI : IsTrans Pixlie.ConversationStep
      (fun a b =>
        Pixlie.getProgressPercentage a < Pixlie.getProgressPercentage b) :=
    ⟨fun _ _ _ => Nat.lt_trans⟩
  rw [← List.chain'_iff_pairwise]
  exact h.imp (fun a b hadv => Pixlie.stepAdvance_progress_lt hadv a b rfl rfl)

/-- C4 witness: the forward-only property on the concrete status chain
`Pending → InProgress → Completed`. -/
theorem c4_status_only_forward_witness :
    List.Pairwise
      (fun a b =>
        Pixlie.getProgressPercentage a < Pixlie.getProgressPercentage b)
      [Pixlie.stepWithStatus 0 .Pending, Pixlie.stepWithStatus 0 .InProgress,
        Pixlie.stepWithStatus 0 .Completed] :=
  c4_status_only_forward _ (by
    refine List.chain'_cons.mpr ⟨Pixlie.StepAdvance.start, ?_⟩
    refine List.chain'_cons.mpr ⟨Pixlie.StepAdvance.complete, ?_⟩
    exact List.chain'_singleton _)

/-- C7: saving a Workspace mid-conversation and loading it back reproduces
an identical ordered step sequence for every Objective, and every Objective
that was `Active` at save time is restored in the resumable `Pending`-replan
state with its status not silently marked `Completed`. -/
theorem c7_save_load_roundtrip (w : Pixlie.Workspace) :
    ((Pixlie.load (Pixlie.save w)).objectives.map Pixlie.Objective.steps
        = w.objectives.map Pixlie.Objective.steps)
    ∧ List.Forall₂
        (fun o o2 =>
          o2.steps = o.steps ∧ o2.id = o.id ∧ o2.status = o.status ∧
            (o.status = .Active →
              o2.resume = .pendingReplan ∧ o2.status ≠ .Completed))
        w.objectives (Pixlie.load (Pixlie.save w)).objectives := by
  obtain ⟨nm, objs⟩ := w
  constructor
  · simp [Pixlie.load, Pixlie.save]
  · simp only [Pixlie.load, Pixlie.save, List.map_map]
    induction objs with
    | nil => exact List.Forall₂.nil
    | cons o rest ih =>
      rw [List.map_cons]
      refine List.Forall₂.cons ⟨rfl, rfl, rfl, ?_⟩ ih
      intro ha
      rw [Function.comp] at *
      constructor
      · show (if o.status = .Active then Pixlie.ResumeState.pendingReplan
          else .notResuming) = .pendingReplan
        rw [if_pos ha]
      · show o.status ≠ .Completed
        rw [ha]
        exact fun hcon => Pixlie.ObjectiveStatus.noConfusion hcon

/-- C7 witness: the round trip evaluated on a workspace holding one `Active`
objective with a two-step ledger. -/
theorem c7_save_load_roundtrip_witness :
    ((Pixlie.load (Pixlie.save
        ⟨"ws", [⟨0, "count authors", .Active,
          [Pixlie.stepWithStatus 0 .Completed], .notResuming⟩]⟩)).objectives.map
            Pixlie.Objective.steps
      = [[Pixlie.stepWithStatus 0 .Completed]]) :=
  (c7_save_load_roundtrip
    ⟨"ws", [⟨0, "count authors", .Active,
      [Pixlie.stepWithStatus 0 .Completed], .notResuming⟩]⟩).1

/-- C9 counterexample: the claim says a non-null `error` always yields the
status `Failed`, but both display components test `tool.error` for JavaScript
truthiness, so the non-null empty-string error `some ""` with a null result is
classified `Running`, not `Failed`. -/
theorem c9_counterexample :
    Pixlie.emptyErrorTool.error = some ""
    ∧ Pixlie.ToolExecutionModal.getStatusText Pixlie.emptyErrorTool = "Running"
    ∧ Pixlie.ToolExecutionTimeline.toolStatusLabel Pixlie.emptyErrorTool = "Running" :=
  ⟨rfl, rfl, rfl⟩

/-- C9 (amended): a truthy error — non-null and non-empty — yields `Failed`
regardless of `result`; when the error is null or the empty string, a non-null
result yields `Completed` and a null result yields `Running`; the modal's
`getStatusText` and the timeline's status label agree on every input. -/
theorem c9_tool_status_classification :
    (∀ tool : Pixlie.ToolExecution,
        Pixlie.ToolExecutionTimeline.toolStatusLabel tool
          = Pixlie.ToolExecutionModal.getStatusText tool)
    ∧ (∀ (tool : Pixlie.ToolExecution) (e : String), tool.error = some e → e ≠ "" →
        Pixlie.ToolExecutionModal.getStatusText tool = "Failed")
    ∧ (∀ tool : Pixlie.ToolExecution, Pixlie.jsTruthyStr tool.error = false →
        tool.result.isSome →
        Pixlie.ToolExecutionModal.getStatusText tool = "Completed")
    ∧ (∀ tool : Pixlie.ToolExecution, Pixlie.jsTruthyStr tool.error = false →
        tool.result = none →
        Pixlie.ToolExecutionModal.getStatusText tool = "Running") := by
  refine ⟨fun tool => rfl, ?_, ?_, ?_⟩
  · intro tool e he hne
    simp [Pixlie.ToolExecutionModal.getStatusText, Pixlie.jsTruthyStr, he, hne]
  · intro tool he hres
    simp [Pixlie.ToolExecutionModal.getStatusText, he, hres]
  · intro tool he hres
    simp [Pixlie.ToolExecutionModal.getStatusText, he, hres]

/-- C9 witness: the amended classification evaluated at concrete tools. -/
theorem c9_tool_status_classification_witness :
    Pixlie.ToolExecutionModal.getStatusText Pixlie.failedTool = "Failed"
    ∧ Pixlie.ToolExecutionModal.getStatusText Pixlie.emptyErrorTool = "Running" :=
  ⟨c9_tool_status_classification.2.1 Pixlie.failedTool "timeout" rfl (by decide),
   c9_tool_status_classification.2.2.2 Pixlie.emptyErrorTool (by decide) rfl⟩

/-- C10: the `formatExecutionTime` helpers of `ToolExecutionTimeline` and
`ToolExecutionModal` are extensionally equal, and both return `N/A` for a null
or zero duration, `<n>ms` for durations strictly between 0 and 1000 ms,
seconds to one decimal place below 60000 ms, and minutes to one decimal place
otherwise. -/
theorem c10_formatExecutionTime_equivalence :
    (∀ t : Option Int,
        Pixlie.ToolExecutionTimeline.formatExecutionTime t
          = Pixlie.ToolExecutionModal.formatExecutionTime t)
    ∧ Pixlie.ToolExecutionModal.formatExecutionTime none = "N/A"
    ∧ Pixlie.ToolExecutionModal.formatExecutionTime (some 0) = "N/A"
    ∧ (∀ d : Int, 0 < d → d < 1000 →
        Pixlie.ToolExecutionModal.formatExecutionTime (some d) = s!"{d}ms")
    ∧ (∀ d : Int, 1000 ≤ d → d < 60000 →
        Pixlie.ToolExecutionModal.formatExecutionTime (some d)
          = Pixlie.toFixed1 d 1000 ++ "s")
    ∧ (∀ d : Int, 60000 ≤ d →
        Pixlie.ToolExecutionModal.formatExecutionTime (some d)
          = Pixlie.toFixed1 d 60000 ++ "m") := by
  refine ⟨fun t => rfl, rfl, rfl, ?_, ?_, ?_⟩
  · intro d h1 h2
    have hne : d ≠ 0 := by omega
    simp [Pixlie.ToolExecutionModal.formatExecutionTime, Pixlie.jsTruthyBigInt,
      hne, h2]
  · intro d h1 h2
    have hne : d ≠ 0 := by omega
    have hlt : ¬ d < 1000 := by omega
    simp [Pixlie.ToolExecutionModal.formatExecutionTime, Pixlie.jsTruthyBigInt,
      hne, hlt, h2]
  · intro d h1
    have hne : d ≠ 0 := by omega
    have hlt : ¬ d < 1000 := by omega
    have hlt2 : ¬ d < 60000 := by omega
    simp [Pixlie.ToolExecutionModal.formatExecutionTime, Pixlie.jsTruthyBigInt,
      hne, hlt, hlt2]

/-- C10 witness: the equivalence and the unit boundaries evaluated at concrete
durations (500 ms, 2500 ms, 90000 ms). -/
theorem c10_formatExecutionTime_equivalence_witness :
    Pixlie.ToolExecutionTimeline.formatExecutionTime (some 500)
      = Pixlie.ToolExecutionModal.formatExecutionTime (some 500)
    ∧ Pixlie.ToolExecutionModal.formatExecutionTime (some 500) = "500ms"
    ∧ Pixlie.ToolExecutionModal.formatExecutionTime (some 2500) = "2.5s"
    ∧ Pixlie.ToolExecutionModal.formatExecutionTime (some 90000) = "1.5m" := by
  refine ⟨c10_formatExecutionTime_equivalence.1 (some 500), ?_, ?_, ?_⟩
  · have h := c10_formatExecutionTime_equivalence.2.2.2.1 500 (by decide) (by decide)
    simpa using h
  · have h := c10_formatExecutionTime_equivalence.2.2.2.2.1 2500 (by decide) (by decide)
    rw [h]; decide
  · have h := c10_formatExecutionTime_equivalence.2.2.2.2.2 90000 (by decide)
    rw [h]; decide
